import Mathlib

/-!
Verification of the `rcpp` preprocessor core: the line/column-aware
character scanner (`src/parser.rs`) and the directive-interpretation
engine (`src/lib.rs`): macro table with override policy, conditional
stack, and the append-only diagnostic sink.
-/

namespace Rcpp

/-! ### Character scanner (src/parser.rs)

`Parser` embeds the Rust struct `Parser<'a, C>`: its `Peekable<Chars>`
iterator becomes the list of characters not yet consumed, together with
the `line` and `col` counters (both `usize`, 1-based). -/

structure Parser where
  chars : List Char
  line : Nat
  col : Nat
deriving DecidableEq, Repr

/-- Embeds `Parser::new` (src/parser.rs:15-22): full input, line 1, col 1. -/
def Parser.new (s : List Char) : Parser :=
  ⟨s, 1, 1⟩

/-- Embeds `Parser::advance_state` (src/parser.rs:37-48): a newline bumps
`line` and resets `col` to 1; any other character bumps `col`. -/
def Parser.advance_state (p : Parser) (c : Char) : Parser :=
  if c = '\n' then { p with line := p.line + 1, col := 1 }
  else { p with col := p.col + 1 }

/-- Embeds the body of `Parser::char` (src/parser.rs:50-73), recursing on the
unconsumed character list. `chars.next()` on an empty iterator gives `None`
(first arm). After consuming a `'\\'`, `chars.peek()` on an exhausted
iterator gives `None` so the whole `and_then` chain yields `None` (second
arm, with the backslash already consumed). A peeked `'\n'` is consumed too
and `self.char()` recurses; any other peeked character stays unconsumed
while `advance_state` runs on it and `'\\'` is returned. A plain character
advances the state by its own rule and is returned. -/
def charAux : List Char → Nat → Nat → Option Char × Parser
  | [], l, co => (none, ⟨[], l, co⟩)
  | ['\\'], l, co => (none, ⟨[], l, co⟩)
  | '\\' :: c2 :: rest, l, co =>
    if c2 = '\n' then charAux rest l co
    else (some '\\', Parser.advance_state ⟨c2 :: rest, l, co⟩ c2)
  | c :: rest, l, co => (some c, Parser.advance_state ⟨rest, l, co⟩ c)

/-- Embeds `Parser::char` (src/parser.rs:50-73) as a state transformer. -/
def Parser.char (p : Parser) : Option Char × Parser :=
  charAux p.chars p.line p.col

/-- Results of `n` successive `Parser::char` calls. -/
def scanN : Nat → Parser → List (Option Char)
  | 0, _ => []
  | n + 1, p =>
    let r := p.char
    r.1 :: scanN n r.2

/-- Results of `n` successive `Parser::char` calls, each paired with the
`(line, col)` held by the scanner when that call was made. -/
def scanTrace : Nat → Parser → List (Option Char × Nat × Nat)
  | 0, _ => []
  | n + 1, p =>
    let r := p.char
    (r.1, p.line, p.col) :: scanTrace n r.2

/-! ### Preprocessor engine (src/lib.rs)

The `HashMap<String, Defined>` macro table is embedded as the lookup
function `String → Option Defined` (keys unique, insertion order
irrelevant, exactly the observable behavior of the map). The
`Vec<bool>` conditional stack, pushed and popped at its end with `last`
as the top, is embedded as a list whose head is the top. -/

/-- Embeds `Defined` (src/lib.rs:51-61). -/
inductive Defined where
  | Object : String → Defined
  | Function : List String → String → Defined
deriving DecidableEq, Repr

/-- Embeds `PreprocessorError` (src/lib.rs:30-47). -/
inductive PreprocessorError where
  | NotAuthorizedDefineOverride : String → Defined → Defined → PreprocessorError
  | UndefineUnknownSymbol : String → PreprocessorError
  | NonMatchingConditional : PreprocessorError
  | CodeDriven : String → PreprocessorError
deriving DecidableEq, Repr

/-- Embeds `DefineMethod` (src/lib.rs:162-196). -/
inductive DefineMethod where
  | Override : DefineMethod
  | Preserve : DefineMethod
  | FailOnOverride : DefineMethod
deriving DecidableEq, Repr

/-- Embeds `PreprocessorOpt` (src/lib.rs:155-158). -/
structure PreprocessorOpt where
  define_method : DefineMethod

/-- Embeds `Preprocessor` (src/lib.rs:65-75). -/
structure Preprocessor where
  opt : PreprocessorOpt
  runtime_errors : List PreprocessorError
  defined_syms : String → Option Defined
  conditional_stack : List Bool

/-- A freshly constructed preprocessor: empty table, empty diagnostic
log, empty conditional stack, with the given define method. -/
def Preprocessor.new (method : DefineMethod) : Preprocessor :=
  ⟨⟨method⟩, [], fun _ => none, []⟩

/-- Embeds `Preprocessor::define_sym` (src/lib.rs:79-103): a vacant entry
is filled; an occupied one is overridden, preserved, or rejected with a
`NotAuthorizedDefineOverride` diagnostic, per the configured method. -/
def Preprocessor.define_sym (p : Preprocessor) (ident : String) (value : Defined) :
    Preprocessor :=
  match p.defined_syms ident with
  | none =>
    { p with defined_syms := fun k => if k = ident then some value else p.defined_syms k }
  | some current =>
    match p.opt.define_method with
    | DefineMethod.Override =>
      { p with defined_syms := fun k => if k = ident then some value else p.defined_syms k }
    | DefineMethod.Preserve => p
    | DefineMethod.FailOnOverride =>
      { p with runtime_errors := p.runtime_errors ++
          [PreprocessorError.NotAuthorizedDefineOverride ident current value] }

/-- Embeds `Preprocessor::undef_sym` (src/lib.rs:106-114): remove the
symbol; if it was absent, append `UndefineUnknownSymbol`. -/
def Preprocessor.undef_sym (p : Preprocessor) (ident : String) : Preprocessor :=
  match p.defined_syms ident with
  | some _ =>
    { p with defined_syms := fun k => if k = ident then none else p.defined_syms k }
  | none =>
    { p with runtime_errors := p.runtime_errors ++
        [PreprocessorError.UndefineUnknownSymbol ident] }

/-- Embeds `Preprocessor::enter_conditional` (src/lib.rs:117-119). -/
def Preprocessor.enter_conditional (p : Preprocessor) (condition : Bool) : Preprocessor :=
  { p with conditional_stack := condition :: p.conditional_stack }

/-- Embeds `Preprocessor::leave_conditional` (src/lib.rs:124-134): pop and
return the top; on an empty stack append `NonMatchingConditional` and
return `none`. -/
def Preprocessor.leave_conditional (p : Preprocessor) : Option Bool × Preprocessor :=
  match p.conditional_stack with
  | [] =>
    (none, { p with runtime_errors := p.runtime_errors ++
        [PreprocessorError.NonMatchingConditional] })
  | c :: rest => (some c, { p with conditional_stack := rest })

/-- Embeds `Preprocessor::is_ignoring` (src/lib.rs:138-140):
`conditional_stack.last().cloned().unwrap_or(true)`. -/
def Preprocessor.is_ignoring (p : Preprocessor) : Bool :=
  p.conditional_stack.head?.getD true

/-- A call to `is_ignoring` observed together with the state after the
call: the method takes `&self`, so the state is returned unchanged. -/
def Preprocessor.is_ignoring_call (p : Preprocessor) : Bool × Preprocessor :=
  (p.is_ignoring, p)

/-- Embeds `Preprocessor::raise_error` (src/lib.rs:143-147). -/
def Preprocessor.raise_error (p : Preprocessor) (error : String) : Preprocessor :=
  { p with runtime_errors := p.runtime_errors ++ [PreprocessorError.CodeDriven error] }

/-- `n` successive `enter_conditional` calls, pushing the booleans in
list order. -/
def enterAll (p : Preprocessor) (bs : List Bool) : Preprocessor :=
  bs.foldl Preprocessor.enter_conditional p

/-- `n` successive `leave_conditional` calls, collecting the returned
values in call order. -/
def leaveAll : Nat → Preprocessor → List (Option Bool) × Preprocessor
  | 0, p => ([], p)
  | n + 1, p =>
    let r := p.leave_conditional
    let rs := leaveAll n r.2
    (r.1 :: rs.1, rs.2)

/-! ### Scanner lemmas -/

/-- Whenever `Parser::char` produces a non-newline character, the call
leaves `line` unchanged and advances `col` by exactly one — regardless of
how many backslash-newline splices were skipped on the way. -/
theorem charAux_some_pos : ∀ (cs : List Char) (l co : Nat) (ch : Char),
    (charAux cs l co).1 = some ch → ch ≠ '\n' →
    (charAux cs l co).2.line = l ∧ (charAux cs l co).2.col = co + 1 := by
  intro cs l co
  induction cs, l, co using charAux.induct with
  | case1 l co =>
    intro ch h _
    simp [charAux] at h
  | case2 l co =>
    intro ch h _
    simp [charAux] at h
  | case3 rest l co ih =>
    intro ch h hn
    exact ih ch h hn
  | case4 c2 rest l co hc2 =>
    intro ch h _
    have : charAux ('\\' :: c2 :: rest) l co =
        (some '\\', Parser.advance_state ⟨c2 :: rest, l, co⟩ c2) := by
      simp [charAux, hc2]
    rw [this]
    simp [Parser.advance_state, hc2]
  | case5 c rest l co h1 h2 =>
    intro ch h hn
    have hc : c ≠ '\\' := by
      intro hceq
      cases rest with
      | nil => exact h1 hceq rfl
      | cons c2 r2 => exact h2 c2 r2 hceq rfl
    have heq : charAux (c :: rest) l co =
        (some c, Parser.advance_state ⟨rest, l, co⟩ c) := by
      simp [charAux, hc]
    rw [heq] at h ⊢
    have hch : ch = c := by simpa using h.symm
    subst hch
    simp [Parser.advance_state, hn]

/-! ### Claim theorems: scanner -/

/-- C1 (counterexample): in the state whose next unconsumed character is a
backslash with no character after it at all — so "the character after it,
if any exists, is not a newline" holds vacuously — `Parser::char` signals
end of input (`none`) instead of returning the backslash literally. -/
theorem claim_C1_counterexample :
    (Parser.char ⟨['\\'], 1, 1⟩).1 = none ∧
      (Parser.char ⟨['\\'], 1, 1⟩).1 ≠ some '\\' := by
  decide

/-- C1 (amended): for every scan state in which the next unconsumed
character is a backslash and a following character exists and is not a
newline, `Parser::char` returns that backslash literally as `'\\'`. -/
theorem claim_C1_theorem (c2 : Char) (rest : List Char) (l co : Nat)
    (h : c2 ≠ '\n') :
    (Parser.char ⟨'\\' :: c2 :: rest, l, co⟩).1 = some '\\' := by
  simp [Parser.char, charAux, h]

/-- C1 (witness): the amended theorem at the concrete state `"\\a"`,
position (1,1). -/
theorem claim_C1_witness :
    'a' ≠ '\n' ∧ (Parser.char ⟨['\\', 'a'], 1, 1⟩).1 = some '\\' :=
  ⟨by decide, claim_C1_theorem 'a' [] 1 1 (by decide)⟩

/-- C2 (counterexample): scanning `"\\a"` from (1,1), the first call
returns `'\\'` with col advanced to 2 and the second call returns `'a'`
with col advanced to 3 — exactly the value obtained when each consumed
character advances the column once (1 + 2 = 3), not one greater (4) as
the claim's double-advance conclusion states. -/
theorem claim_C2_counterexample :
    (Parser.char (Parser.new ['\\', 'a'])).1 = some '\\' ∧
      (Parser.char (Parser.new ['\\', 'a'])).2.col = 2 ∧
      (Parser.char (Parser.char (Parser.new ['\\', 'a'])).2).1 = some 'a' ∧
      (Parser.char (Parser.char (Parser.new ['\\', 'a'])).2).2.col = 1 + 2 ∧
      (Parser.char (Parser.char (Parser.new ['\\', 'a'])).2).2.col ≠ 1 + 2 + 1 := by
  decide

/-- C2 (amended): when `Parser::char` meets a lone backslash followed by a
non-newline character `c2`, it advances the counters at that moment using
`c2`'s advance rule (col + 1, line unchanged) while leaving `c2`
unconsumed, and a next call that returns `c2` advances the column again by
one; since the backslash fetch performed the only advance attributable to
the backslash, the column after fetching `c2` equals `co + 2` — exactly
one advance per consumed character, with no observable double count. -/
theorem claim_C2_theorem (c2 : Char) (rest : List Char) (l co : Nat)
    (h : c2 ≠ '\n') :
    Parser.char ⟨'\\' :: c2 :: rest, l, co⟩ = (some '\\', ⟨c2 :: rest, l, co + 1⟩) ∧
      ((Parser.char ⟨c2 :: rest, l, co + 1⟩).1 = some c2 →
        (Parser.char ⟨c2 :: rest, l, co + 1⟩).2.line = l ∧
          (Parser.char ⟨c2 :: rest, l, co + 1⟩).2.col = co + 2) := by
  constructor
  · simp [Parser.char, charAux, h, Parser.advance_state]
  · intro hsome
    exact charAux_some_pos (c2 :: rest) l (co + 1) c2 hsome h

/-- C2 (witness): the amended theorem at the concrete state `"\\a"`,
position (1,1). -/
theorem claim_C2_witness :
    'a' ≠ '\n' ∧
      (Parser.char ⟨['\\', 'a'], 1, 1⟩ = (some '\\', ⟨['a'], 1, 2⟩) ∧
        ((Parser.char ⟨['a'], 1, 2⟩).1 = some 'a' →
          (Parser.char ⟨['a'], 1, 2⟩).2.line = 1 ∧
            (Parser.char ⟨['a'], 1, 2⟩).2.col = 3)) :=
  ⟨by decide, claim_C2_theorem 'a' [] 1 1 (by decide)⟩

/-- C3: a backslash immediately followed by a newline is a
line-continuation splice: both characters are discarded without touching
line or column and the call behaves exactly as a call on the remaining
input (hence the rule re-applies to an immediately following splice); in
particular scanning the six characters `a \ \n b \ space` yields
`'a', 'b', '\\', ' '`, then end of input. -/
theorem claim_C3_theorem :
    (∀ (rest : List Char) (l co : Nat),
        Parser.char ⟨'\\' :: '\n' :: rest, l, co⟩ = Parser.char ⟨rest, l, co⟩) ∧
      scanN 5 (Parser.new ['a', '\\', '\n', 'b', '\\', ' ']) =
        [some 'a', some 'b', some '\\', some ' ', none] :=
  ⟨fun _ _ _ => rfl, by decide⟩

/-- C4: scanning `"abc"` from the initial position (1,1) yields
`'a', 'b', 'c'`, then end of input on every further call; the line is 1
throughout, the positions held by the scanner at the five calls give
columns 1, 2, 3, 4, 4, and calls made after exhaustion return `none`
without changing line or column. -/
theorem claim_C4_theorem :
    Parser.new ['a', 'b', 'c'] = ⟨['a', 'b', 'c'], 1, 1⟩ ∧
      scanTrace 5 (Parser.new ['a', 'b', 'c']) =
        [(some 'a', 1, 1), (some 'b', 1, 2), (some 'c', 1, 3),
         (none, 1, 4), (none, 1, 4)] ∧
      Parser.char ⟨[], 1, 4⟩ = (none, ⟨[], 1, 4⟩) := by
  refine ⟨rfl, by decide, by decide⟩

/-! ### Preprocessor lemmas -/

/-- `enterAll` pushes the booleans in reverse order on top of the stack
and touches no other field. -/
theorem enterAll_fields : ∀ (bs : List Bool) (p : Preprocessor),
    (enterAll p bs).conditional_stack = bs.reverse ++ p.conditional_stack ∧
      (enterAll p bs).runtime_errors = p.runtime_errors ∧
      (enterAll p bs).defined_syms = p.defined_syms ∧
      (enterAll p bs).opt = p.opt := by
  intro bs
  induction bs with
  | nil => intro p; simp [enterAll]
  | cons b bs ih =>
    intro p
    have h := ih (p.enter_conditional b)
    have heq : enterAll p (b :: bs) = enterAll (p.enter_conditional b) bs := rfl
    rw [heq]
    refine ⟨?_, ?_, ?_, ?_⟩
    · rw [h.1]; simp [Preprocessor.enter_conditional]
    · rw [h.2.1]; rfl
    · rw [h.2.2.1]; rfl
    · rw [h.2.2.2]; rfl

/-- Popping a stack of known contents with `leave_conditional`, once per
element, returns exactly those contents in order, empties the stack, and
appends no diagnostic. -/
theorem leaveAll_spec : ∀ (s : List Bool) (p : Preprocessor),
    p.conditional_stack = s →
    leaveAll s.length p =
      (s.map some, ⟨p.opt, p.runtime_errors, p.defined_syms, []⟩) := by
  intro s
  induction s with
  | nil =>
    intro p h
    cases p with
    | mk o r d c =>
      simp only [Preprocessor.conditional_stack] at h
      simp [leaveAll, h]
  | cons b s ih =>
    intro p h
    have hleave : p.leave_conditional = (some b, { p with conditional_stack := s }) := by
      simp [Preprocessor.leave_conditional, h]
    have hrec := ih { p with conditional_stack := s } rfl
    show leaveAll (s.length + 1) p = _
    simp only [leaveAll, hleave, hrec]
    simp

/-! ### Claim theorems: preprocessor -/

/-- C5: under the `FailOnOverride` policy, defining an already-defined
identifier leaves the whole table unchanged and appends exactly one
`NotAuthorizedDefineOverride` diagnostic carrying the identifier, the
existing value and the candidate value; in particular
`define("FOO", Object("1"))` then `define("FOO", Object("2"))` from a
fresh preprocessor leaves the table holding `Object("1")` and the sink
holding exactly that one diagnostic. -/
theorem claim_C5_theorem (p : Preprocessor) (ident : String) (value current : Defined)
    (hm : p.opt.define_method = DefineMethod.FailOnOverride)
    (hd : p.defined_syms ident = some current) :
    (p.define_sym ident value).defined_syms = p.defined_syms ∧
      (p.define_sym ident value).runtime_errors = p.runtime_errors ++
        [PreprocessorError.NotAuthorizedDefineOverride ident current value] ∧
      (((Preprocessor.new DefineMethod.FailOnOverride).define_sym "FOO"
          (Defined.Object "1")).define_sym "FOO" (Defined.Object "2")).defined_syms "FOO"
        = some (Defined.Object "1") ∧
      (((Preprocessor.new DefineMethod.FailOnOverride).define_sym "FOO"
          (Defined.Object "1")).define_sym "FOO" (Defined.Object "2")).runtime_errors
        = [PreprocessorError.NotAuthorizedDefineOverride "FOO"
            (Defined.Object "1") (Defined.Object "2")] := by
  refine ⟨?_, ?_, rfl, rfl⟩
  · simp [Preprocessor.define_sym, hd, hm]
  · simp [Preprocessor.define_sym, hd, hm]

/-- C5 (witness): the theorem at the concrete preprocessor that holds
`FOO ↦ Object("1")` under `FailOnOverride`. -/
theorem claim_C5_witness :
    (((Preprocessor.new DefineMethod.FailOnOverride).define_sym "FOO"
        (Defined.Object "1")).define_sym "FOO" (Defined.Object "2")).defined_syms =
      ((Preprocessor.new DefineMethod.FailOnOverride).define_sym "FOO"
        (Defined.Object "1")).defined_syms ∧
      (((Preprocessor.new DefineMethod.FailOnOverride).define_sym "FOO"
          (Defined.Object "1")).define_sym "FOO" (Defined.Object "2")).runtime_errors =
        ((Preprocessor.new DefineMethod.FailOnOverride).define_sym "FOO"
          (Defined.Object "1")).runtime_errors ++
          [PreprocessorError.NotAuthorizedDefineOverride "FOO"
            (Defined.Object "1") (Defined.Object "2")] :=
  have h := claim_C5_theorem
    ((Preprocessor.new DefineMethod.FailOnOverride).define_sym "FOO" (Defined.Object "1"))
    "FOO" (Defined.Object "2") (Defined.Object "1") rfl rfl
  ⟨h.1, h.2.1⟩

/-- C6: `undef` on a defined identifier removes exactly that identifier
from the table and appends no diagnostic; `undef` on an undefined
identifier changes no state except for appending exactly one
`UndefineUnknownSymbol` diagnostic carrying the identifier. -/
theorem claim_C6_theorem (p : Preprocessor) (ident : String) :
    (∀ v, p.defined_syms ident = some v →
      (p.undef_sym ident).defined_syms ident = none ∧
        (∀ k, k ≠ ident → (p.undef_sym ident).defined_syms k = p.defined_syms k) ∧
        (p.undef_sym ident).runtime_errors = p.runtime_errors ∧
        (p.undef_sym ident).conditional_stack = p.conditional_stack ∧
        (p.undef_sym ident).opt = p.opt) ∧
      (p.defined_syms ident = none →
        p.undef_sym ident = { p with runtime_errors := p.runtime_errors ++
          [PreprocessorError.UndefineUnknownSymbol ident] }) := by
  constructor
  · intro v hv
    refine ⟨?_, ?_, ?_, ?_, ?_⟩ <;>
      simp [Preprocessor.undef_sym, hv]
    intro k hk
    simp [hk]
  · intro hn
    simp [Preprocessor.undef_sym, hn]

/-- C6 (witness): the theorem's defined branch at a preprocessor holding
`X`, and its undefined branch at a fresh preprocessor. -/
theorem claim_C6_witness :
    ((((Preprocessor.new DefineMethod.Override).define_sym "X"
        (Defined.Object "v")).undef_sym "X").defined_syms "X" = none ∧
      (((Preprocessor.new DefineMethod.Override).define_sym "X"
        (Defined.Object "v")).undef_sym "X").runtime_errors = [] ) ∧
      (Preprocessor.new DefineMethod.Override).undef_sym "X" =
        { Preprocessor.new DefineMethod.Override with runtime_errors :=
            (Preprocessor.new DefineMethod.Override).runtime_errors ++
              [PreprocessorError.UndefineUnknownSymbol "X"] } :=
  have h1 := (claim_C6_theorem
    ((Preprocessor.new DefineMethod.Override).define_sym "X" (Defined.Object "v"))
    "X").1 (Defined.Object "v") rfl
  have h2 := (claim_C6_theorem (Preprocessor.new DefineMethod.Override) "X").2 rfl
  ⟨⟨h1.1, h1.2.2.1⟩, h2⟩

/-- C7: from an empty conditional stack, pushing any list of booleans with
`enter_conditional` and then popping as many times with
`leave_conditional` returns the pushed values in last-in-first-out order
with zero diagnostics appended; one further `leave_conditional` on the
now-empty stack returns `none`, leaves the stack empty, and appends
exactly one `NonMatchingConditional` diagnostic. -/
theorem claim_C7_theorem (bs : List Bool) (p : Preprocessor)
    (h : p.conditional_stack = []) :
    (leaveAll bs.length (enterAll p bs)).1 = bs.reverse.map some ∧
      (leaveAll bs.length (enterAll p bs)).2.runtime_errors = p.runtime_errors ∧
      (leaveAll bs.length (enterAll p bs)).2.conditional_stack = [] ∧
      (leaveAll bs.length (enterAll p bs)).2.leave_conditional.1 = none ∧
      (leaveAll bs.length (enterAll p bs)).2.leave_conditional.2.conditional_stack = [] ∧
      (leaveAll bs.length (enterAll p bs)).2.leave_conditional.2.runtime_errors =
        p.runtime_errors ++ [PreprocessorError.NonMatchingConditional] := by
  have he := enterAll_fields bs p
  have hstack : (enterAll p bs).conditional_stack = bs.reverse := by
    rw [he.1, h, List.append_nil]
  have hl := leaveAll_spec bs.reverse (enterAll p bs) hstack
  have hlen : bs.length = bs.reverse.length := (List.length_reverse bs).symm
  rw [hlen, hl]
  refine ⟨rfl, he.2.1, rfl, ?_, ?_, ?_⟩
  · rfl
  · rfl
  · show (enterAll p bs).runtime_errors ++ _ = _
    rw [he.2.1]

/-- C7 (witness): the theorem at the concrete run `enter(true);
enter(false); leave(); leave(); leave()` from a fresh preprocessor. -/
theorem claim_C7_witness :
    (leaveAll 2 (enterAll (Preprocessor.new DefineMethod.Override) [true, false])).1 =
        [some false, some true] ∧
      (leaveAll 2 (enterAll (Preprocessor.new DefineMethod.Override)
        [true, false])).2.runtime_errors = [] ∧
      (leaveAll 2 (enterAll (Preprocessor.new DefineMethod.Override)
        [true, false])).2.conditional_stack = [] ∧
      (leaveAll 2 (enterAll (Preprocessor.new DefineMethod.Override)
        [true, false])).2.leave_conditional.1 = none ∧
      (leaveAll 2 (enterAll (Preprocessor.new DefineMethod.Override)
        [true, false])).2.leave_conditional.2.conditional_stack = [] ∧
      (leaveAll 2 (enterAll (Preprocessor.new DefineMethod.Override)
        [true, false])).2.leave_conditional.2.runtime_errors =
        [PreprocessorError.NonMatchingConditional] :=
  claim_C7_theorem [true, false] (Preprocessor.new DefineMethod.Override) rfl

/-- C8: `is_ignoring` returns the top-of-stack value when the conditional
stack is non-empty and returns `true` when the stack is empty. -/
theorem claim_C8_theorem (p : Preprocessor) :
    (p.conditional_stack = [] → p.is_ignoring = true) ∧
      (∀ (b : Bool) (rest : List Bool), p.conditional_stack = b :: rest →
        p.is_ignoring = b) := by
  constructor
  · intro h
    simp [Preprocessor.is_ignoring, h]
  · intro b rest h
    simp [Preprocessor.is_ignoring, h]

/-- C8 (witness): the empty-stack branch at a fresh preprocessor and the
non-empty branch after `enter_conditional false`. -/
theorem claim_C8_witness :
    (Preprocessor.new DefineMethod.Override).is_ignoring = true ∧
      ((Preprocessor.new DefineMethod.Override).enter_conditional false).is_ignoring
        = false :=
  ⟨(claim_C8_theorem (Preprocessor.new DefineMethod.Override)).1 rfl,
    (claim_C8_theorem
      ((Preprocessor.new DefineMethod.Override).enter_conditional false)).2 false [] rfl⟩

/-- C9: each single call to `define_sym`, `undef_sym`,
`enter_conditional`, `leave_conditional`, or `raise_error` either leaves
the diagnostic log unchanged or appends exactly one diagnostic at its
end, so previously recorded diagnostics always remain an unchanged
initial segment of the log. -/
theorem claim_C9_theorem (p : Preprocessor) (id1 id2 : String) (value : Defined)
    (cond : Bool) (msg : String) :
    ((p.define_sym id1 value).runtime_errors = p.runtime_errors ∨
      ∃ d, (p.define_sym id1 value).runtime_errors = p.runtime_errors ++ [d]) ∧
    ((p.undef_sym id2).runtime_errors = p.runtime_errors ∨
      ∃ d, (p.undef_sym id2).runtime_errors = p.runtime_errors ++ [d]) ∧
    ((p.enter_conditional cond).runtime_errors = p.runtime_errors ∨
      ∃ d, (p.enter_conditional cond).runtime_errors = p.runtime_errors ++ [d]) ∧
    (p.leave_conditional.2.runtime_errors = p.runtime_errors ∨
      ∃ d, p.leave_conditional.2.runtime_errors = p.runtime_errors ++ [d]) ∧
    ((p.raise_error msg).runtime_errors = p.runtime_errors ∨
      ∃ d, (p.raise_error msg).runtime_errors = p.runtime_errors ++ [d]) := by
  refine ⟨?_, ?_, ?_, ?_, ?_⟩
  · cases hd : p.defined_syms id1 with
    | none => left; simp [Preprocessor.define_sym, hd]
    | some current =>
      cases hm : p.opt.define_method with
      | Override => left; simp [Preprocessor.define_sym, hd, hm]
      | Preserve => left; simp [Preprocessor.define_sym, hd, hm]
      | FailOnOverride =>
        right
        exact ⟨PreprocessorError.NotAuthorizedDefineOverride id1 current value,
          by simp [Preprocessor.define_sym, hd, hm]⟩
  · cases hd : p.defined_syms id2 with
    | none =>
      right
      exact ⟨PreprocessorError.UndefineUnknownSymbol id2,
        by simp [Preprocessor.undef_sym, hd]⟩
    | some v => left; simp [Preprocessor.undef_sym, hd]
  · left; rfl
  · cases hs : p.conditional_stack with
    | nil =>
      right
      exact ⟨PreprocessorError.NonMatchingConditional,
        by simp [Preprocessor.leave_conditional, hs]⟩
    | cons b rest => left; simp [Preprocessor.leave_conditional, hs]
  · right; exact ⟨PreprocessorError.CodeDriven msg, rfl⟩

/-- C10: `define_sym` and `undef_sym` never modify the conditional stack
or the configured define method; `enter_conditional`, `leave_conditional`
and `raise_error` never modify the macro table; `is_ignoring` (a `&self`
method, state returned unchanged) modifies no state, so two consecutive
calls return the same value. -/
theorem claim_C10_theorem (p : Preprocessor) (id1 id2 : String) (value : Defined)
    (cond : Bool) (msg : String) :
    ((p.define_sym id1 value).conditional_stack = p.conditional_stack ∧
      (p.define_sym id1 value).opt.define_method = p.opt.define_method) ∧
    ((p.undef_sym id2).conditional_stack = p.conditional_stack ∧
      (p.undef_sym id2).opt.define_method = p.opt.define_method) ∧
    (p.enter_conditional cond).defined_syms = p.defined_syms ∧
    p.leave_conditional.2.defined_syms = p.defined_syms ∧
    (p.raise_error msg).defined_syms = p.defined_syms ∧
    p.is_ignoring_call.2 = p ∧
    p.is_ignoring_call.1 = p.is_ignoring_call.2.is_ignoring_call.1 := by
  refine ⟨⟨?_, ?_⟩, ⟨?_, ?_⟩, rfl, ?_, rfl, rfl, rfl⟩
  · cases hd : p.defined_syms id1 with
    | none => simp [Preprocessor.define_sym, hd]
    | some current =>
      cases hm : p.opt.define_method <;> simp [Preprocessor.define_sym, hd, hm]
  · cases hd : p.defined_syms id1 with
    | none => simp [Preprocessor.define_sym, hd]
    | some current =>
      cases hm : p.opt.define_method <;> simp [Preprocessor.define_sym, hd, hm]
  · cases hd : p.defined_syms id2 <;> simp [Preprocessor.undef_sym, hd]
  · cases hd : p.defined_syms id2 <;> simp [Preprocessor.undef_sym, hd]
  · cases hs : p.conditional_stack <;> simp [Preprocessor.leave_conditional, hs]

end Rcpp
